import Mathlib

/-
  Verification development for the ropoly gadget-discovery and
  fingerprint-diffing engine.

  Shallow embedding of:
  - lib/architectures/amd64/x86Decoder.go  (InstructionDecoder, GadgetDecoder)
  - lib/GadgetsFromProcess.go              (GadgetsFromProcess)
  - lib/Fingerprint.go                     (Fingerprint, compareFingerprints,
                                            compareFingerprintRegions)
  - lib (unnamed file)                     (DisassembleFile)

  External collaborators (the x86asm disassembler, the masche memory
  access layer, the disasm gadget extractor, openBinary and
  nextSectionData) are modelled as explicit parameters: a function
  argument for the disassembler, and lists of per-call results for the
  enumeration primitives.  Go maps are embedded as association lists
  iterated in list order; Go slices as lists; uint64 and uintptr
  arithmetic as Nat arithmetic modulo 2^64.
-/

namespace Ropoly

/-- 2^64, the modulus of uint64 and uintptr arithmetic. -/
def wordSize : Nat := 18446744073709551616

/-- Wrapping subtraction of uint64 values, as in Go: a - b on uint64. -/
def wsub (a b : Nat) : Nat := ((a % wordSize) + (wordSize - b % wordSize)) % wordSize

/-- Association-list lookup, mirroring a Go map read of key k.
    Go maps hold at most one entry per key; the embedding reads the
    first matching entry. -/
def alook {β : Type} (k : String) : List (String × β) → Option β
  | [] => none
  | p :: ps => if p.1 = k then some p.2 else alook k ps

/-- Go map read of a slice-valued map: a missing key reads as the nil
    slice, embedded as the empty list. -/
def alookD (gl : List (String × List Nat)) (s : String) : List Nat :=
  (alook s gl).getD []

/-- types.Instruction: the raw bytes consumed and the disassembly text. -/
structure Instr where
  Octets : List Nat
  DisAsm : String
deriving DecidableEq

/-- Result of one call of the external x86asm.Decode disassembler
    (together with the Inst.String rendering): a decoded length and
    text, an error, or a panic of the library. -/
inductive DasmResult : Type
  | ok (len : Nat) (dis : String)
  | err (msg : String)
  | pan (msg : String)
deriving DecidableEq

/-- Outcome of a decoder function of the repository: a value, an error
    value, or a propagated panic. -/
inductive Outcome (α : Type) : Type
  | ok (val : α)
  | err (msg : String)
  | pan (msg : String)
deriving DecidableEq

/-- InstructionDecoder from x86Decoder.go, parametric in the external
    disassembler.  The deferred recover converts any panic raised
    inside the function body (from the disassembler, or from the
    slicing opcodes[0:inst.Len] when inst.Len exceeds the slice) into
    an error return; a library error is wrapped and returned. -/
def InstructionDecoder (dasm : List Nat → DasmResult) (opcodes : List Nat) : Outcome Instr :=
  match dasm opcodes with
  | .pan m => .err ("Unable to decode instruction due to disassembler panic: " ++ m)
  | .err m => .err ("Unable to decode instruction.: " ++ m)
  | .ok len dis =>
    if len ≤ opcodes.length then .ok ⟨opcodes.take len, dis⟩
    else .err "Unable to decode instruction due to disassembler panic: slice bounds out of range"

/-- Loop body of GadgetDecoder from x86Decoder.go.  The Go loop runs
    while the slice is nonempty: decode one instruction, append it,
    stop when the remaining slice is no longer than the decoded
    instruction, otherwise drop the consumed prefix and continue.  The
    fuel argument bounds the iteration count; fuel exhaustion (which
    models the nonterminating Go loop arising from a zero-length
    decode) is reported as an error. -/
def gadgetLoop (dasm : List Nat → DasmResult) : Nat → List Nat → List Instr → Outcome (List Instr)
  | fuel, opcodes, gadget =>
    if opcodes = [] then .ok gadget
    else
      match InstructionDecoder dasm opcodes with
      | .pan m => .pan m
      | .err e => .err ("Error decoding underlying instruction.: " ++ e)
      | .ok instr =>
        let gadget1 := gadget ++ [instr]
        let gadlen := instr.Octets.length
        if opcodes.length ≤ gadlen then .ok gadget1
        else
          match fuel with
          | 0 => .err "nonterminating loop"
          | f + 1 => gadgetLoop dasm f (opcodes.drop gadlen) gadget1

/-- GadgetDecoder from x86Decoder.go: decode instructions from the
    byte slice until it is exhausted; any decoder error aborts. -/
def GadgetDecoder (dasm : List Nat → DasmResult) (opcodes : List Nat) : Outcome (List Instr) :=
  gadgetLoop dasm opcodes.length opcodes []

/-- The external disassembler consumes at least one byte whenever it
    succeeds (x86asm.Decode reports a positive Len on success). -/
def WellBehaved (dasm : List Nat → DasmResult) : Prop :=
  ∀ b l d, dasm b = .ok l d → 1 ≤ l

/-- Total length of the octet fields of a decoded gadget. -/
def octetsLen (g : List Instr) : Nat :=
  (g.map (fun i => i.Octets.length)).sum

/-- Modelled from the spec: the AMD64 terminator set names any
    instruction whose mnemonic begins with RET (indirect JMP and CALL
    forms also terminate; they are not needed here).  The terminator
    classification itself lives in the external disasm library, not in
    the sources under verification. -/
def isTerminating (i : Instr) : Bool :=
  i.DisAsm.data.take 3 == ['R', 'E', 'T']

/-- Test model of the external x86asm disassembler on the opcodes used
    by the concrete witnesses: C3 is RET, 90 is NOP, 58 is POP RAX,
    each one byte long; anything else is an unrecognised opcode. -/
def xdasm (b : List Nat) : DasmResult :=
  match b with
  | [] => .err "truncated instruction"
  | x :: _ =>
    if x = 195 then .ok 1 "RET"
    else if x = 144 then .ok 1 "NOP"
    else if x = 88 then .ok 1 "POP RAX"
    else .err "unrecognised opcode"

/-- One iteration worth of results from the external enumeration
    primitives consumed by GadgetsFromProcess: the outcome of
    memaccess.NextMemoryRegionAccess (whether it reported
    NoRegionAvailable, its hard error, its soft errors), the outcome
    of memaccess.CopyMemory on the region, and the outcome of
    disasm GetAllGadgets on the copied bytes. -/
structure RegionStep where
  noRegion : Bool
  hardNext : Option String
  softNext : List String
  copyHard : Option String
  copySoft : List String
  gadgets : List Nat
  gadgetErrs : List String
deriving DecidableEq

/-- Return value of GadgetsFromProcess together with a record of
    whether the deferred PtraceDetach ran. -/
structure ProcOutcome where
  gadgets : Option (List Nat)
  harderr : Option String
  soft : List String
  detachCalled : Bool
deriving DecidableEq

/-- The region loop of GadgetsFromProcess.go: per region, append the
    soft errors of the region walk, abort on its hard error, stop at
    NoRegionAvailable; when the target is not pid 0 copy the region
    bytes, aborting on a hard copy error (note the Go code drops the
    copy soft errors on that path); extract gadgets and accumulate
    them with their soft errors.  The end of the list models the walk
    reporting NoRegionAvailable with no further errors. -/
def regionLoop (pid : Nat) : List RegionStep → List Nat → List String → Option (List Nat) × Option String × List String
  | [], acc, softs => (some acc, none, softs)
  | s :: rest, acc, softs =>
    let softs1 := softs ++ s.softNext
    match s.hardNext with
    | some e => (none, some ("Error when attempting to access the next memory region: " ++ e), softs1)
    | none =>
      if s.noRegion then (some acc, none, softs1)
      else if pid = 0 then
        regionLoop pid rest (acc ++ s.gadgets) (softs1 ++ s.gadgetErrs)
      else
        match s.copyHard with
        | some e => (none, some ("Error when attempting to access the memory contents: " ++ e), softs1)
        | none => regionLoop pid rest (acc ++ s.gadgets) (softs1 ++ s.copySoft ++ s.gadgetErrs)

/-- GadgetsFromProcess from GadgetsFromProcess.go.  When pid differs
    from the current pid the function first attaches with
    PtraceAttach, returning a hard error when that fails; on success
    it registers a deferred PtraceDetach which runs on every
    subsequent return path, and whose failure is only logged: the
    detachErr parameter is consulted by no output.  detachCalled
    records whether the deferred detach ran. -/
def GadgetsFromProcess (pid selfPid : Nat) (attachErr detachErr : Option String)
    (steps : List RegionStep) : ProcOutcome :=
  if pid ≠ selfPid then
    match attachErr with
    | some e => ⟨none, some ("Error when attempting to PtraceAttach to Pid from Ropoly.: " ++ e), [], false⟩
    | none =>
      let r := regionLoop pid steps [] []
      ⟨r.1, r.2.1, r.2.2, true⟩
  else
    let r := regionLoop pid steps [] []
    ⟨r.1, r.2.1, r.2.2, false⟩

/-- One result of b.nextSectionData together with the result of Disasm
    on the section data, consumed by DisassembleFile: whether another
    section exists, the instructions and soft errors Disasm yields on
    its bytes, and the error value of the call. -/
structure SectionStep where
  secExists : Bool
  instrs : List Nat
  disErrs : List String
  err : Option String
deriving DecidableEq

/-- The section loop of DisassembleFile: the loop guard consults only
    the existence flag; the error value of a call is examined only
    once the loop body has been entered, so an error reported together
    with a false existence flag is never read. -/
def dfLoop : List SectionStep → List Nat → List String → Option (List Nat) × Option String × List String
  | [], acc, softs => (some acc, none, softs)
  | s :: rest, acc, softs =>
    if s.secExists then
      match s.err with
      | some e => (none, some e, [])
      | none => dfLoop rest (acc ++ s.instrs) (softs ++ s.disErrs)
    else (some acc, none, softs)

/-- DisassembleFile from the unnamed lib file: open the binary
    (aborting on failure), then iterate nextSectionData, accumulating
    instructions and soft errors per existing section. -/
def DisassembleFile (openErr : Option String) (steps : List SectionStep) :
    Option (List Nat) × Option String × List String :=
  match openErr with
  | some e => (none, some e, [])
  | none => dfLoop steps [] []

/-- memaccess.MemoryRegion as used by the fingerprint code: base
    address, size and the kind string of the section or mapping. -/
structure MemoryRegion where
  Address : Nat
  Size : Nat
  Kind : String
deriving DecidableEq

/-- FingerprintRegion from lib types: the region metadata and the map
    from gadget signature to the addresses of its instances. -/
structure FingerprintRegion where
  Region : MemoryRegion
  Gadgets : List (String × List Nat)
deriving DecidableEq

/-- A gadget as delivered to the fingerprint builder callback:
    its signature and its start address. -/
structure GadgetEv where
  Signature : String
  Address : Nat
deriving DecidableEq

/-- One callback invocation of OperateOnGadgets as observed by the
    closures inside Fingerprint: either the region callback setting
    the current section, or the gadget callback delivering a gadget. -/
inductive FPEvent : Type
  | regionEvt (r : MemoryRegion)
  | gadgetEvt (g : GadgetEv)
deriving DecidableEq

/-- Go map append fingerprint[kind].Gadgets[sig] = append(..., addr):
    extend the entry of sig, creating it when missing. -/
def appendAddr : List (String × List Nat) → String → Nat → List (String × List Nat)
  | [], s, a => [(s, [a])]
  | p :: ps, s, a =>
    if p.1 = s then (p.1, p.2 ++ [a]) :: ps
    else p :: appendAddr ps s a

/-- The body of the gadget callback in Fingerprint (Fingerprint.go):
    when the kind of the current section is unseen, allocate a fresh
    FingerprintRegion carrying that section as its Region; then append
    the gadget address under its signature. -/
def addGadget : List (String × FingerprintRegion) → MemoryRegion → GadgetEv → List (String × FingerprintRegion)
  | [], sect, g => [(sect.Kind, ⟨sect, [(g.Signature, [g.Address])]⟩)]
  | p :: ps, sect, g =>
    if p.1 = sect.Kind then (p.1, ⟨p.2.Region, appendAddr p.2.Gadgets g.Signature g.Address⟩) :: ps
    else p :: addGadget ps sect g

/-- The pair of callbacks of Fingerprint folded over the event stream
    produced by OperateOnGadgets: the region callback replaces the
    captured section variable, the gadget callback updates the map. -/
def processFP : MemoryRegion → List (String × FingerprintRegion) → List FPEvent → List (String × FingerprintRegion)
  | _, fp, [] => fp
  | _, fp, .regionEvt r :: es => processFP r fp es
  | sect, fp, .gadgetEvt g :: es => processFP sect (addGadget fp sect g) es

/-- Fingerprint from Fingerprint.go, as a function of the callback
    event stream.  The captured section variable starts at the Go zero
    value of memaccess.MemoryRegion. -/
def Fingerprint (events : List FPEvent) : List (String × FingerprintRegion) :=
  processFP ⟨0, 0, ""⟩ [] events

/-- Modelled from the spec: the region whose metadata the builder must
    keep for a kind is the section current at the first gadget
    delivered under that kind. -/
def specFirstRegion : MemoryRegion → List FPEvent → String → Option MemoryRegion
  | _, [], _ => none
  | _, .regionEvt r :: es, k => specFirstRegion r es k
  | sect, .gadgetEvt _ :: es, k =>
    if sect.Kind = k then some sect else specFirstRegion sect es k

/-- Modelled from the spec: the deterministic merge of gadget
    addresses for a kind and signature is the emission-ordered list of
    the addresses of gadgets delivered while a section of that kind
    was current. -/
def specAddrs : MemoryRegion → List FPEvent → String → String → List Nat
  | _, [], _, _ => []
  | _, .regionEvt r :: es, k, s => specAddrs r es k s
  | sect, .gadgetEvt g :: es, k, s =>
    (if sect.Kind = k then (if g.Signature = s then [g.Address] else []) else []) ++ specAddrs sect es k s

/-- The gadget displacement map built by compareFingerprintRegions:
    for every signature of the old region and every old address under
    it, record the vector of wrapping offsets to every new address of
    the same signature (the empty vector when the signature is absent
    from the new region); the map is keyed by old address, a later
    write replacing an earlier one. -/
def gadgetDisplacementsMap (oldG newG : List (String × List Nat)) : Nat → Option (List Nat) :=
  oldG.foldl (fun gd p =>
    let newAddresses := alookD newG p.1
    p.2.foldl (fun gd2 oldAddress =>
      fun x => if x = oldAddress then some (newAddresses.map (fun b => wsub b oldAddress)) else gd2 x) gd)
    (fun _ => none)

/-- FingerprintRegionComparison from lib types. -/
structure FingerprintRegionComparison where
  Region : MemoryRegion
  Displacement : Nat
  GadgetDisplacements : Nat → Option (List Nat)
  AddedGadgets : List (String × List Nat)

/-- FingerprintComparison from lib types. -/
structure FingerprintComparison where
  RemovedRegions : List MemoryRegion
  AddedRegions : List MemoryRegion
  SharedRegionComparisons : List FingerprintRegionComparison

/-- compareFingerprintRegions from Fingerprint.go. -/
def compareFingerprintRegions (old new : FingerprintRegion) : FingerprintRegionComparison :=
  { Region := old.Region
    Displacement := wsub new.Region.Address old.Region.Address
    GadgetDisplacements := gadgetDisplacementsMap old.Gadgets new.Gadgets
    AddedGadgets := new.Gadgets.filter (fun p => (alook p.1 old.Gadgets).isNone) }

/-- compareFingerprints from Fingerprint.go: kinds of old absent from
    new are removed, kinds present in both are compared (the map read
    of the iterated key returns the iterated value), kinds of new
    absent from old are added. -/
def compareFingerprints (old new : List (String × FingerprintRegion)) : FingerprintComparison :=
  { RemovedRegions := (old.filter (fun p => (alook p.1 new).isNone)).map (fun p => p.2.Region)
    SharedRegionComparisons := old.filterMap (fun p => (alook p.1 new).map (fun q => compareFingerprintRegions p.2 q))
    AddedRegions := (new.filter (fun p => (alook p.1 old).isNone)).map (fun p => p.2.Region) }

/-- The address that last wrote the displacement-map entry of x:
    the signature of the last old entry whose address list holds x. -/
def lastOwner (oldG : List (String × List Nat)) (x : Nat) : Option String :=
  oldG.foldl (fun acc p => if x ∈ p.2 then some p.1 else acc) none

/-- Well-formedness of a fingerprint as Go produces it: map keys are
    unique, per-signature address lists hold no duplicate instance,
    and addresses are uint64 values. -/
def wellFormedFingerprint (f : List (String × FingerprintRegion)) : Prop :=
  (f.map Prod.fst).Nodup ∧
  ∀ p ∈ f, (p.2.Gadgets.map Prod.fst).Nodup ∧
    ∀ q ∈ p.2.Gadgets, q.2.Nodup ∧ ∀ a ∈ q.2, a < wordSize

instance wellFormedFingerprintDecidable (f : List (String × FingerprintRegion)) :
    Decidable (wellFormedFingerprint f) := by
  unfold wellFormedFingerprint
  infer_instance

/-- Concrete fingerprint for the C4 witness. -/
def c4fp : List (String × FingerprintRegion) :=
  [("text", ⟨⟨4096, 100, "text"⟩, [("RET", [4096, 4200]), ("POP RAX; RET", [4100])]⟩)]

/-- Concrete old region for the C5 counterexample: the address 100 is
    shared by the Sigs s1 and s2. -/
def c5old : FingerprintRegion := ⟨⟨4096, 100, "text"⟩, [("s1", [100]), ("s2", [100])]⟩

/-- Concrete new region for the C5 counterexample. -/
def c5new : FingerprintRegion := ⟨⟨4096, 100, "text"⟩, [("s1", [100]), ("s2", [100, 108])]⟩

/-- Concrete old region for the C5 witness. -/
def c5oldW : FingerprintRegion := ⟨⟨4096, 100, "text"⟩, [("ret", [10, 20])]⟩

/-- Concrete new region for the C5 witness. -/
def c5newW : FingerprintRegion := ⟨⟨8192, 100, "text"⟩, [("ret", [30, 40, 50])]⟩

/-- Concrete old region for the C7 counterexample: the address 100 of
    the removed Sig s1 also belongs to the surviving Sig s2. -/
def c7old : FingerprintRegion := ⟨⟨4096, 100, "text"⟩, [("s1", [100]), ("s2", [100])]⟩

/-- Concrete new region for the C7 counterexample. -/
def c7new : FingerprintRegion := ⟨⟨4096, 100, "text"⟩, [("s2", [100])]⟩

/-- Concrete old region for the C7 witness. -/
def c7oldW : FingerprintRegion := ⟨⟨4096, 100, "text"⟩, [("gone", [50, 60])]⟩

/-- Concrete new region for the C7 witness. -/
def c7newW : FingerprintRegion := ⟨⟨8192, 100, "text"⟩, [("kept", [70])]⟩

/-! Helper lemmas about association lists. -/

theorem alook_none_iff {β : Type} (k : String) (l : List (String × β)) :
    alook k l = none ↔ ∀ p ∈ l, p.1 ≠ k := by
  induction l with
  | nil => simp [alook]
  | cons p ps ih =>
    by_cases h : p.1 = k
    · simp [alook, h]
    · simp [alook, h, ih]

theorem alook_ne_none_of_mem {β : Type} {l : List (String × β)} {p : String × β}
    (hp : p ∈ l) : alook p.1 l ≠ none := by
  intro hnone
  exact ((alook_none_iff p.1 l).mp hnone) p hp rfl

theorem alook_eq_of_mem_nodup {β : Type} {l : List (String × β)} {p : String × β}
    (hnd : (l.map Prod.fst).Nodup) (hp : p ∈ l) : alook p.1 l = some p.2 := by
  induction l with
  | nil => cases hp
  | cons q qs ih =>
    rcases List.mem_cons.mp hp with rfl | hmem
    · simp [alook]
    · have hq : q.1 ≠ p.1 := by
        intro he
        have : p.1 ∈ qs.map Prod.fst := List.mem_map.mpr ⟨p, hmem, rfl⟩
        rw [List.map_cons] at hnd
        exact (List.nodup_cons.mp hnd).1 (he ▸ this)
      simp only [alook, if_neg hq]
      exact ih (List.nodup_cons.mp (by rw [List.map_cons] at hnd; exact hnd)).2 hmem

theorem alook_mem {β : Type} {l : List (String × β)} {k : String} {v : β}
    (h : alook k l = some v) : (k, v) ∈ l := by
  induction l with
  | nil => simp [alook] at h
  | cons p ps ih =>
    by_cases hk : p.1 = k
    · simp only [alook, if_pos hk] at h
      cases h
      subst hk
      exact List.mem_cons_self _ _
    · simp only [alook, if_neg hk] at h
      exact List.mem_cons_of_mem _ (ih h)

/-! Helper lemmas about wrapping subtraction. -/

theorem wsub_self (a : Nat) : wsub a a = 0 := by
  unfold wsub wordSize
  omega

theorem wsub_eq_zero_iff {a b : Nat} (ha : a < wordSize) (hb : b < wordSize) :
    wsub b a = 0 ↔ b = a := by
  unfold wsub wordSize at *
  omega

/-! Helper lemmas about the instruction decoder. -/

theorem instructionDecoder_ok {dasm : List Nat → DasmResult} {b : List Nat} {i : Instr}
    (h : InstructionDecoder dasm b = .ok i) :
    ∃ l d, dasm b = .ok l d ∧ l ≤ b.length ∧ i = ⟨b.take l, d⟩ := by
  unfold InstructionDecoder at h
  rcases hd : dasm b with ⟨l, d⟩ | m | m <;> rw [hd] at h <;> dsimp only at h
  · by_cases hl : l ≤ b.length
    · rw [if_pos hl] at h
      cases h
      exact ⟨l, d, rfl, hl, rfl⟩
    · rw [if_neg hl] at h
      cases h
  · cases h
  · cases h

/-- The central invariant of the gadget loop: with a well-behaved
    disassembler and enough fuel, a successful run appends to the
    accumulator a block of instructions whose octets concatenate to
    exactly the remaining slice, and the decoder, applied to the
    suffix starting at each appended instruction, yields exactly that
    instruction. -/
theorem gadgetLoop_ok {dasm : List Nat → DasmResult} (hw : WellBehaved dasm) :
    ∀ (fuel : Nat) (opcodes : List Nat) (acc g : List Instr),
    opcodes.length ≤ fuel + 1 →
    gadgetLoop dasm fuel opcodes acc = .ok g →
    ∃ gs, g = acc ++ gs ∧ ((gs.map (fun i => i.Octets)).flatten = opcodes) ∧
      ∀ k (hk : k < gs.length),
        InstructionDecoder dasm (((gs.drop k).map (fun i => i.Octets)).flatten) = .ok (gs.get ⟨k, hk⟩) := by
  intro fuel
  induction fuel with
  | zero =>
    intro opcodes acc g hlen h
    by_cases hop : opcodes = []
    · subst hop
      unfold gadgetLoop at h
      simp only [if_pos rfl] at h
      cases h
      exact ⟨[], by simp, by simp, by intro k hk; cases hk⟩
    · unfold gadgetLoop at h
      rw [if_neg hop] at h
      rcases hid : InstructionDecoder dasm opcodes with i | m | m <;> rw [hid] at h
      · obtain ⟨l, d, hdasm, hl, hi⟩ := instructionDecoder_ok hid
        have hl1 : 1 ≤ l := hw opcodes l d hdasm
        have hgl : i.Octets.length = l := by
          rw [hi]
          simp [List.length_take, Nat.min_eq_left hl]
        by_cases hbr : opcodes.length ≤ i.Octets.length
        · simp only [if_pos hbr] at h
          cases h
          have hll : l = opcodes.length := by omega
          have hoct : i.Octets = opcodes := by
            rw [hi, hll]
            simp
          refine ⟨[i], rfl, by simp [hoct], ?_⟩
          intro k hk
          obtain rfl : k = 0 := Nat.lt_one_iff.mp (by simpa using hk)
          simpa [hoct] using hid
        · simp only [if_neg hbr] at h
          cases h
      · cases h
      · cases h
  | succ f ih =>
    intro opcodes acc g hlen h
    by_cases hop : opcodes = []
    · subst hop
      unfold gadgetLoop at h
      simp only [if_pos rfl] at h
      cases h
      exact ⟨[], by simp, by simp, by intro k hk; cases hk⟩
    · unfold gadgetLoop at h
      rw [if_neg hop] at h
      rcases hid : InstructionDecoder dasm opcodes with i | m | m <;> rw [hid] at h
      · obtain ⟨l, d, hdasm, hl, hi⟩ := instructionDecoder_ok hid
        have hl1 : 1 ≤ l := hw opcodes l d hdasm
        have hgl : i.Octets.length = l := by
          rw [hi]
          simp [List.length_take, Nat.min_eq_left hl]
        by_cases hbr : opcodes.length ≤ i.Octets.length
        · simp only [if_pos hbr] at h
          cases h
          have hll : l = opcodes.length := by omega
          have hoct : i.Octets = opcodes := by
            rw [hi, hll]
            simp
          refine ⟨[i], rfl, by simp [hoct], ?_⟩
          intro k hk
          obtain rfl : k = 0 := Nat.lt_one_iff.mp (by simpa using hk)
          simpa [hoct] using hid
        · simp only [if_neg hbr] at h
          have hrec := ih (opcodes.drop i.Octets.length) (acc ++ [i]) g
            (by
              have : (opcodes.drop i.Octets.length).length = opcodes.length - i.Octets.length := by
                simp
              omega) h
          obtain ⟨gs, hg, hflat, hsuffix⟩ := hrec
          have hoct2 : i.Octets = opcodes.take l := by rw [hi]
          have hcons : ((i :: gs).map (fun i => i.Octets)).flatten = opcodes := by
            rw [List.map_cons, List.flatten_cons, hflat, hgl, hoct2, List.take_append_drop]
          refine ⟨i :: gs, by simpa using hg, hcons, ?_⟩
          intro k hk
          cases k with
          | zero =>
            rw [List.drop_zero, hcons]
            simpa using hid
          | succ k0 =>
            simp only [List.drop_succ_cons]
            exact hsuffix k0 (by simpa using hk)
      · cases h
      · cases h

theorem xdasm_wellBehaved : WellBehaved xdasm := by
  intro b l d h
  cases b with
  | nil => simp [xdasm] at h
  | cons x xs =>
    simp only [xdasm] at h
    split_ifs at h <;> cases h <;> exact Nat.le_refl 1

/-- C6: for every input byte slice, InstructionDecoder returns either
    a decoded instruction or an error value, never a propagated panic
    of the underlying disassembler; as a pure function of its input
    slice it cannot let a failure at one offset corrupt a decoding
    attempt at another. -/
theorem claimC6_theorem (dasm : List Nat → DasmResult) (b : List Nat) :
    (∃ i, InstructionDecoder dasm b = .ok i) ∨ (∃ m, InstructionDecoder dasm b = .err m) := by
  unfold InstructionDecoder
  rcases dasm b with ⟨l, d⟩ | m | m <;> dsimp only
  · by_cases hl : l ≤ b.length
    · rw [if_pos hl]
      exact Or.inl ⟨_, rfl⟩
    · rw [if_neg hl]
      exact Or.inr ⟨_, rfl⟩
  · exact Or.inr ⟨_, rfl⟩
  · exact Or.inr ⟨_, rfl⟩

/-- C1 counterexample: on the byte slice C3 90 (a RET followed by a
    NOP) the gadget decoder appends the control-flow-terminating RET
    and keeps decoding to the end of the slice, returning a
    two-instruction gadget whose first instruction is terminating; the
    claimed stop condition would have returned the one-instruction
    gadget RET. -/
theorem claimC1_counterexample :
    GadgetDecoder xdasm [195, 144] = .ok [⟨[195], "RET"⟩, ⟨[144], "NOP"⟩] ∧
    isTerminating ⟨[195], "RET"⟩ = true := by
  constructor
  · decide
  · decide

/-- C1 (amended): for every input byte slice, GadgetDecoder repeatedly
    invokes the instruction decoder and accumulates instructions until
    the slice is exhausted, regardless of whether an appended
    instruction is control-flow-terminating; an instruction-decoder
    error aborts the gadget and surfaces as an error instead of a
    partial gadget. -/
theorem claimC1_theorem (dasm : List Nat → DasmResult) (hw : WellBehaved dasm)
    (opcodes : List Nat) (hne : opcodes ≠ []) :
    (∀ e, InstructionDecoder dasm opcodes = .err e →
      GadgetDecoder dasm opcodes = .err ("Error decoding underlying instruction.: " ++ e)) ∧
    (∀ g, GadgetDecoder dasm opcodes = .ok g → octetsLen g = opcodes.length) := by
  constructor
  · intro e he
    unfold GadgetDecoder gadgetLoop
    rw [if_neg hne, he]
  · intro g hg
    obtain ⟨gs, hgacc, hflat, -⟩ :=
      gadgetLoop_ok hw opcodes.length opcodes [] g (by omega) hg
    have hggs : g = gs := by simpa using hgacc
    subst hggs
    unfold octetsLen
    have h1 : (g.map (fun i => i.Octets.length)).sum
        = ((g.map (fun i => i.Octets)).map List.length).sum := by
      rw [List.map_map]
      rfl
    rw [h1, ← List.length_flatten, hflat]

theorem claimC1_witness :
    (∀ e, InstructionDecoder xdasm [195, 144] = .err e →
      GadgetDecoder xdasm [195, 144] = .err ("Error decoding underlying instruction.: " ++ e)) ∧
    (∀ g, GadgetDecoder xdasm [195, 144] = .ok g → octetsLen g = ([195, 144] : List Nat).length) :=
  claimC1_theorem xdasm xdasm_wellBehaved [195, 144] (by decide)

/-- C8: whenever GadgetDecoder succeeds, concatenating the octets of
    the returned instructions in order reproduces the input slice
    exactly, and each instruction is exactly what the instruction
    decoder yields on the suffix of the slice at which it was decoded,
    so its octets are exactly the prefix the decoder consumed. -/
theorem claimC8_theorem (dasm : List Nat → DasmResult) (hw : WellBehaved dasm)
    (opcodes : List Nat) (g : List Instr) (hok : GadgetDecoder dasm opcodes = .ok g) :
    ((g.map (fun i => i.Octets)).flatten = opcodes) ∧
    ∀ k (hk : k < g.length),
      InstructionDecoder dasm (((g.drop k).map (fun i => i.Octets)).flatten) = .ok (g.get ⟨k, hk⟩) := by
  obtain ⟨gs, hgacc, hflat, hsuff⟩ :=
    gadgetLoop_ok hw opcodes.length opcodes [] g (by omega) hok
  have hggs : g = gs := by simpa using hgacc
  subst hggs
  exact ⟨hflat, hsuff⟩

theorem claimC8_witness :
    (([⟨[88], "POP RAX"⟩, ⟨[195], "RET"⟩].map (fun i : Instr => i.Octets)).flatten = [88, 195]) ∧
    ∀ k (hk : k < ([⟨[88], "POP RAX"⟩, ⟨[195], "RET"⟩] : List Instr).length),
      InstructionDecoder xdasm ((([⟨[88], "POP RAX"⟩, ⟨[195], "RET"⟩] : List Instr).drop k).map (fun i => i.Octets)).flatten
        = .ok (([⟨[88], "POP RAX"⟩, ⟨[195], "RET"⟩] : List Instr).get ⟨k, hk⟩) :=
  claimC8_theorem xdasm xdasm_wellBehaved [88, 195] [⟨[88], "POP RAX"⟩, ⟨[195], "RET"⟩] (by decide)

/-- When every region yields only soft errors (no hard error, no
    NoRegionAvailable cut), the region loop visits every region,
    concatenates all gadgets and accumulates every soft error. -/
theorem regionLoop_all_soft (pid : Nat) :
    ∀ (steps : List RegionStep) (acc : List Nat) (softs : List String),
    (∀ s ∈ steps, s.hardNext = none ∧ s.copyHard = none ∧ s.noRegion = false) →
    regionLoop pid steps acc softs =
      (some (acc ++ (steps.map (fun s => s.gadgets)).flatten), none,
       softs ++ (steps.map (fun s => s.softNext ++ (if pid = 0 then [] else s.copySoft) ++ s.gadgetErrs)).flatten) := by
  intro steps
  induction steps with
  | nil =>
    intro acc softs _
    simp [regionLoop]
  | cons s rest ih =>
    intro acc softs h
    obtain ⟨hh, hc, hr⟩ := h s (List.mem_cons_self s rest)
    have hrest := fun t ht => h t (List.mem_cons_of_mem s ht)
    by_cases hp : pid = 0
    · simp only [regionLoop, hh, hr, if_pos hp]
      rw [ih _ _ hrest]
      simp [hp, List.append_assoc]
    · simp only [regionLoop, hh, hr, hc, if_neg hp]
      rw [ih _ _ hrest]
      simp [hp, List.append_assoc]

/-- C2: soft errors from individual regions are accumulated and
    returned alongside the gadgets of the successfully read regions;
    a region contributing only soft errors never aborts the traversal
    of the remaining regions. -/
theorem claimC2_theorem (pid selfPid : Nat) (detachErr : Option String) (steps : List RegionStep)
    (h : ∀ s ∈ steps, s.hardNext = none ∧ s.copyHard = none ∧ s.noRegion = false) :
    (GadgetsFromProcess pid selfPid none detachErr steps).gadgets
        = some ((steps.map (fun s => s.gadgets)).flatten) ∧
    (GadgetsFromProcess pid selfPid none detachErr steps).harderr = none ∧
    (GadgetsFromProcess pid selfPid none detachErr steps).soft
        = (steps.map (fun s => s.softNext ++ (if pid = 0 then [] else s.copySoft) ++ s.gadgetErrs)).flatten := by
  unfold GadgetsFromProcess
  by_cases hps : pid ≠ selfPid
  · rw [if_pos hps]
    dsimp only
    rw [regionLoop_all_soft pid steps [] [] h]
    simp
  · rw [if_neg hps]
    dsimp only
    rw [regionLoop_all_soft pid steps [] [] h]
    simp

theorem claimC2_witness :
    (GadgetsFromProcess 5 4 none none
        [⟨false, none, ["walk soft"], none, ["copy soft"], [7], ["extract soft"]⟩,
         ⟨false, none, [], none, [], [8], []⟩]).gadgets
      = some (([⟨false, none, ["walk soft"], none, ["copy soft"], [7], ["extract soft"]⟩,
         ⟨false, none, [], none, [], [8], []⟩] : List RegionStep).map (fun s => s.gadgets)).flatten ∧
    (GadgetsFromProcess 5 4 none none
        [⟨false, none, ["walk soft"], none, ["copy soft"], [7], ["extract soft"]⟩,
         ⟨false, none, [], none, [], [8], []⟩]).harderr = none ∧
    (GadgetsFromProcess 5 4 none none
        [⟨false, none, ["walk soft"], none, ["copy soft"], [7], ["extract soft"]⟩,
         ⟨false, none, [], none, [], [8], []⟩]).soft
      = (([⟨false, none, ["walk soft"], none, ["copy soft"], [7], ["extract soft"]⟩,
         ⟨false, none, [], none, [], [8], []⟩] : List RegionStep).map
          (fun s => s.softNext ++ (if (5 : Nat) = 0 then [] else s.copySoft) ++ s.gadgetErrs)).flatten :=
  claimC2_theorem 5 4 none
    [⟨false, none, ["walk soft"], none, ["copy soft"], [7], ["extract soft"]⟩,
     ⟨false, none, [], none, [], [8], []⟩] (by decide)

/-- C3 counterexample: with a target pid distinct from the current
    pid, a successful attach and a failing detach, the run returns
    with the deferred detach executed, no hard error, and an empty
    soft-error list: the detach failure is not reported to the caller
    as a soft error (it is only logged). -/
theorem claimC3_counterexample :
    (GadgetsFromProcess 5 4 none (some "unable to detach") []).detachCalled = true ∧
    (GadgetsFromProcess 5 4 none (some "unable to detach") []).harderr = none ∧
    (GadgetsFromProcess 5 4 none (some "unable to detach") []).soft = [] := by
  decide

/-- C3 (amended): when the pid differs from the current process and
    ptrace attach succeeds, the deferred ptrace detach runs on every
    exit path, and the outcome of the detach never alters the returned
    values, so a detach failure never masks an in-progress hard error;
    however it is only logged and is not surfaced to the caller as a
    soft error. -/
theorem claimC3_theorem (pid selfPid : Nat) (detachErr : Option String) (steps : List RegionStep)
    (hne : pid ≠ selfPid) :
    (GadgetsFromProcess pid selfPid none detachErr steps).detachCalled = true ∧
    GadgetsFromProcess pid selfPid none detachErr steps
      = GadgetsFromProcess pid selfPid none none steps := by
  unfold GadgetsFromProcess
  rw [if_pos hne]
  exact ⟨rfl, rfl⟩

theorem claimC3_witness :
    (GadgetsFromProcess 5 4 none (some "detach failed") []).detachCalled = true ∧
    GadgetsFromProcess 5 4 none (some "detach failed") []
      = GadgetsFromProcess 5 4 none none [] :=
  claimC3_theorem 5 4 (some "detach failed") [] (by decide)

/-- When every leading section exists without an error value, the
    section loop accumulates their instructions and soft errors, and a
    call reporting that no further section exists ends the loop
    successfully, its error value never being examined. -/
theorem dfLoop_clean :
    ∀ (pre : List SectionStep) (acc : List Nat) (softs : List String) (t : SectionStep) (rest : List SectionStep),
    (∀ s ∈ pre, s.secExists = true ∧ s.err = none) →
    t.secExists = false →
    dfLoop (pre ++ t :: rest) acc softs =
      (some (acc ++ (pre.map (fun s => s.instrs)).flatten), none,
       softs ++ (pre.map (fun s => s.disErrs)).flatten) := by
  intro pre
  induction pre with
  | nil =>
    intro acc softs t rest _ ht
    simp only [List.nil_append, dfLoop, ht]
    simp
  | cons s ps ih =>
    intro acc softs t rest hpre ht
    obtain ⟨hse, herr⟩ := hpre s (List.mem_cons_self s ps)
    simp only [List.cons_append, dfLoop, hse, herr, if_true, List.append_eq]
    rw [ih _ _ t rest (fun q hq => hpre q (List.mem_cons_of_mem s hq)) ht]
    simp [List.append_assoc]

/-- C10: when a nextSectionData call reports that no further section
    exists while returning a non-nil error (on the first call or any
    later one), that error is discarded: DisassembleFile returns the
    instructions accumulated so far with a nil hard error, because the
    error value is examined only when another section was reported to
    exist. -/
theorem claimC10_theorem (pre : List SectionStep) (t : SectionStep) (rest : List SectionStep) (e : String)
    (hpre : ∀ s ∈ pre, s.secExists = true ∧ s.err = none)
    (ht : t.secExists = false) (hterr : t.err = some e) :
    DisassembleFile none (pre ++ t :: rest) =
      (some ((pre.map (fun s => s.instrs)).flatten), none,
       (pre.map (fun s => s.disErrs)).flatten) := by
  unfold DisassembleFile
  rw [dfLoop_clean pre [] [] t rest hpre ht]
  simp

theorem claimC10_witness :
    DisassembleFile none [⟨false, [], [], some "io error"⟩] = (some [], none, []) :=
  claimC10_theorem [] ⟨false, [], [], some "io error"⟩ [] "io error" (by simp) rfl rfl

/-! Lemmas about the fingerprint builder. -/

theorem alook_appendAddr_self (gl : List (String × List Nat)) (s : String) (a : Nat) :
    alook s (appendAddr gl s a) = some ((alook s gl).getD [] ++ [a]) := by
  induction gl with
  | nil => simp [appendAddr, alook]
  | cons p ps ih =>
    by_cases h : p.1 = s
    · simp [appendAddr, alook, h]
    · simp [appendAddr, alook, h, ih]

theorem alook_appendAddr_ne {t s : String} (h : t ≠ s) (gl : List (String × List Nat)) (a : Nat) :
    alook t (appendAddr gl s a) = alook t gl := by
  induction gl with
  | nil => simp [appendAddr, alook, Ne.symm h]
  | cons p ps ih =>
    by_cases hp : p.1 = s
    · simp [appendAddr, alook, hp, Ne.symm h]
    · simp [appendAddr, alook, hp, ih]

theorem alook_addGadget_none {fp : List (String × FingerprintRegion)} {sect : MemoryRegion}
    (g : GadgetEv) (h0 : alook sect.Kind fp = none) :
    alook sect.Kind (addGadget fp sect g) = some ⟨sect, [(g.Signature, [g.Address])]⟩ := by
  induction fp with
  | nil => simp [addGadget, alook]
  | cons p ps ih =>
    by_cases hp : p.1 = sect.Kind
    · simp [alook, hp] at h0
    · simp only [alook, if_neg hp] at h0
      simp [addGadget, alook, hp, ih h0]

theorem alook_addGadget_some {fp : List (String × FingerprintRegion)} {sect : MemoryRegion}
    {fr0 : FingerprintRegion} (g : GadgetEv) (h0 : alook sect.Kind fp = some fr0) :
    alook sect.Kind (addGadget fp sect g)
      = some ⟨fr0.Region, appendAddr fr0.Gadgets g.Signature g.Address⟩ := by
  induction fp with
  | nil => simp [alook] at h0
  | cons p ps ih =>
    by_cases hp : p.1 = sect.Kind
    · simp only [alook, if_pos hp] at h0
      cases h0
      simp [addGadget, alook, hp]
    · simp only [alook, if_neg hp] at h0
      simp [addGadget, alook, hp, ih h0]

theorem alook_addGadget_ne {k : String} {sect : MemoryRegion} (hk : k ≠ sect.Kind)
    (fp : List (String × FingerprintRegion)) (g : GadgetEv) :
    alook k (addGadget fp sect g) = alook k fp := by
  induction fp with
  | nil => simp [addGadget, alook, Ne.symm hk]
  | cons p ps ih =>
    by_cases hp : p.1 = sect.Kind
    · simp [addGadget, alook, hp, Ne.symm hk]
    · simp [addGadget, alook, hp, ih]

theorem keys_addGadget (fp : List (String × FingerprintRegion)) (sect : MemoryRegion) (g : GadgetEv) :
    (addGadget fp sect g).map Prod.fst
      = if (alook sect.Kind fp).isSome then fp.map Prod.fst
        else fp.map Prod.fst ++ [sect.Kind] := by
  induction fp with
  | nil => simp [addGadget, alook]
  | cons p ps ih =>
    by_cases hp : p.1 = sect.Kind
    · simp [addGadget, alook, hp]
    · by_cases hc : (alook sect.Kind ps).isSome
      · simp [addGadget, alook, hp, hc, ih]
      · simp [addGadget, alook, hp, hc, ih]

theorem nodupKeys_addGadget (fp : List (String × FingerprintRegion)) (sect : MemoryRegion)
    (g : GadgetEv) (h : (fp.map Prod.fst).Nodup) :
    ((addGadget fp sect g).map Prod.fst).Nodup := by
  rw [keys_addGadget]
  by_cases hc : (alook sect.Kind fp).isSome
  · rw [if_pos hc]
    exact h
  · rw [if_neg hc]
    have hnone : alook sect.Kind fp = none := Option.not_isSome_iff_eq_none.mp hc
    have hnot : sect.Kind ∉ fp.map Prod.fst := by
      intro hmem
      obtain ⟨p, hp, hfst⟩ := List.mem_map.mp hmem
      exact ((alook_none_iff sect.Kind fp).mp hnone) p hp hfst
    refine List.Nodup.append h (List.nodup_singleton _) ?_
    intro x hx hxs
    rw [List.mem_singleton.mp hxs] at hx
    exact hnot hx

theorem nodupKeys_processFP :
    ∀ (events : List FPEvent) (sect : MemoryRegion) (fp : List (String × FingerprintRegion)),
    (fp.map Prod.fst).Nodup → ((processFP sect fp events).map Prod.fst).Nodup := by
  intro events
  induction events with
  | nil =>
    intro sect fp h
    simpa [processFP] using h
  | cons e es ih =>
    intro sect fp h
    cases e with
    | regionEvt r =>
      simp only [processFP]
      exact ih r fp h
    | gadgetEvt g =>
      simp only [processFP]
      exact ih sect _ (nodupKeys_addGadget fp sect g h)

/-- Refinement of the fingerprint builder against the spec-side
    description: every entry of the built map carries the region
    current at the first gadget of its kind (relative to what the
    starting map already recorded), and its per-signature address
    lists extend the starting ones by the emission-ordered addresses
    of the events. -/
theorem processFP_lookup :
    ∀ (events : List FPEvent) (sect : MemoryRegion) (fp : List (String × FingerprintRegion))
      (k : String) (fr : FingerprintRegion),
    alook k (processFP sect fp events) = some fr →
    ((∃ fr0, alook k fp = some fr0 ∧ fr.Region = fr0.Region ∧
        ∀ s, alookD fr.Gadgets s = alookD fr0.Gadgets s ++ specAddrs sect events k s) ∨
     (alook k fp = none ∧ specFirstRegion sect events k = some fr.Region ∧
        ∀ s, alookD fr.Gadgets s = specAddrs sect events k s)) := by
  intro events
  induction events with
  | nil =>
    intro sect fp k fr h
    simp only [processFP] at h
    left
    exact ⟨fr, h, rfl, fun s => by simp [specAddrs]⟩
  | cons e es ih =>
    intro sect fp k fr h
    cases e with
    | regionEvt r =>
      simp only [processFP] at h
      have h1 := ih r fp k fr h
      simpa [specFirstRegion, specAddrs] using h1
    | gadgetEvt g =>
      simp only [processFP] at h
      by_cases hk : k = sect.Kind
      · subst hk
        rcases h0 : alook sect.Kind fp with _ | fr0
        · have hself := alook_addGadget_none g h0
          have h1 := ih sect (addGadget fp sect g) sect.Kind fr h
          rcases h1 with ⟨fr1, hfr1, hreg, hgad⟩ | ⟨hnone, hfirst, hgad⟩
          · rw [hself] at hfr1
            injection hfr1 with he
            subst he
            right
            refine ⟨rfl, ?_, ?_⟩
            · simp [specFirstRegion, hreg]
            · intro s
              rw [hgad s]
              by_cases hs : g.Signature = s <;>
                simp [specAddrs, alookD, alook, hs]
          · rw [hself] at hnone
            cases hnone
        · have hself := alook_addGadget_some g h0
          have h1 := ih sect (addGadget fp sect g) sect.Kind fr h
          rcases h1 with ⟨fr1, hfr1, hreg, hgad⟩ | ⟨hnone, hfirst, hgad⟩
          · rw [hself] at hfr1
            injection hfr1 with he
            subst he
            left
            refine ⟨fr0, rfl, by simpa using hreg, ?_⟩
            intro s
            rw [hgad s]
            by_cases hs : s = g.Signature
            · subst hs
              unfold alookD
              rw [alook_appendAddr_self]
              simp [specAddrs, alookD]
            · unfold alookD
              rw [alook_appendAddr_ne hs]
              by_cases hgs : g.Signature = s
              · exact absurd hgs.symm hs
              · simp [specAddrs, alookD, hgs]
          · rw [hself] at hnone
            cases hnone
      · have h1 := ih sect (addGadget fp sect g) k fr h
        rw [alook_addGadget_ne hk fp g] at h1
        have hks : sect.Kind ≠ k := Ne.symm hk
        rcases h1 with ⟨fr0, hfr0, hreg, hgad⟩ | ⟨hnone, hfirst, hgad⟩
        · left
          exact ⟨fr0, hfr0, hreg, fun s => by rw [hgad s]; simp [specAddrs, hks]⟩
        · right
          refine ⟨hnone, ?_, fun s => by rw [hgad s]; simp [specAddrs, hks]⟩
          simpa [specFirstRegion, hks] using hfirst

/-- C9: the fingerprint built from any enumeration pass maps each
    region kind to at most one FingerprintRegion; the entry of a kind
    carries as Region the section current at the first gadget of that
    kind, and merges the addresses of all gadgets of that kind (also
    from a later region of the same kind) deterministically, in
    emission order, keyed by signature. -/
theorem claimC9_theorem (events : List FPEvent) (k : String) :
    ((Fingerprint events).map Prod.fst).Nodup ∧
    ∀ fr, alook k (Fingerprint events) = some fr →
      specFirstRegion ⟨0, 0, ""⟩ events k = some fr.Region ∧
      ∀ s, alookD fr.Gadgets s = specAddrs ⟨0, 0, ""⟩ events k s := by
  constructor
  · exact nodupKeys_processFP events ⟨0, 0, ""⟩ [] (by simp)
  · intro fr h
    rcases processFP_lookup events ⟨0, 0, ""⟩ [] k fr h with ⟨fr0, hfr0, -, -⟩ | ⟨-, hfirst, hgad⟩
    · simp [alook] at hfr0
    · exact ⟨hfirst, hgad⟩

theorem claimC9_witness :
    specFirstRegion ⟨0, 0, ""⟩
        [FPEvent.regionEvt ⟨4096, 10, "text"⟩, FPEvent.gadgetEvt ⟨"RET", 4097⟩,
         FPEvent.regionEvt ⟨8192, 10, "text"⟩, FPEvent.gadgetEvt ⟨"RET", 8193⟩] "text"
      = some (⟨4096, 10, "text"⟩ : MemoryRegion) ∧
    ∀ s, alookD (⟨⟨4096, 10, "text"⟩, [("RET", [4097, 8193])]⟩ : FingerprintRegion).Gadgets s
      = specAddrs ⟨0, 0, ""⟩
        [FPEvent.regionEvt ⟨4096, 10, "text"⟩, FPEvent.gadgetEvt ⟨"RET", 4097⟩,
         FPEvent.regionEvt ⟨8192, 10, "text"⟩, FPEvent.gadgetEvt ⟨"RET", 8193⟩] "text" s :=
  (claimC9_theorem
    [FPEvent.regionEvt ⟨4096, 10, "text"⟩, FPEvent.gadgetEvt ⟨"RET", 4097⟩,
     FPEvent.regionEvt ⟨8192, 10, "text"⟩, FPEvent.gadgetEvt ⟨"RET", 8193⟩] "text").2
    ⟨⟨4096, 10, "text"⟩, [("RET", [4097, 8193])]⟩ (by decide)

/-! Lemmas about the fingerprint comparator. -/

theorem cfr_GD (old new : FingerprintRegion) :
    (compareFingerprintRegions old new).GadgetDisplacements
      = gadgetDisplacementsMap old.Gadgets new.Gadgets := rfl

theorem cfr_added (old new : FingerprintRegion) :
    (compareFingerprintRegions old new).AddedGadgets
      = new.Gadgets.filter (fun p => (alook p.1 old.Gadgets).isNone) := rfl

theorem cfr_disp (old new : FingerprintRegion) :
    (compareFingerprintRegions old new).Displacement
      = wsub new.Region.Address old.Region.Address := rfl

theorem innerFold_eq (newAddresses : List Nat) :
    ∀ (as : List Nat) (gd : Nat → Option (List Nat)) (x : Nat),
    (as.foldl (fun gd2 oldAddress =>
        fun y => if y = oldAddress then some (newAddresses.map (fun b => wsub b oldAddress)) else gd2 y) gd) x
      = if x ∈ as then some (newAddresses.map (fun b => wsub b x)) else gd x := by
  intro as
  induction as with
  | nil =>
    intro gd x
    simp
  | cons a as ih =>
    intro gd x
    rw [List.foldl_cons, ih]
    by_cases hx : x ∈ as
    · simp [hx]
    · by_cases hxa : x = a
      · subst hxa
        simp [hx]
      · simp [hx, hxa]

theorem gdFold_eq (newG : List (String × List Nat)) :
    ∀ (oldG : List (String × List Nat)) (gd : Nat → Option (List Nat)) (o : Option String) (x : Nat),
    gd x = o.map (fun s => (alookD newG s).map (fun b => wsub b x)) →
    (oldG.foldl (fun gd p =>
        let newAddresses := alookD newG p.1
        p.2.foldl (fun gd2 oldAddress =>
          fun y => if y = oldAddress then some (newAddresses.map (fun b => wsub b oldAddress)) else gd2 y) gd)
      gd) x
      = (oldG.foldl (fun acc p => if x ∈ p.2 then some p.1 else acc) o).map
          (fun s => (alookD newG s).map (fun b => wsub b x)) := by
  intro oldG
  induction oldG with
  | nil =>
    intro gd o x h
    simpa using h
  | cons p ps ih =>
    intro gd o x h
    rw [List.foldl_cons, List.foldl_cons]
    refine ih _ _ x ?_
    dsimp only
    rw [innerFold_eq]
    by_cases hx : x ∈ p.2
    · simp [hx]
    · simp [hx, h]

theorem gadgetDisplacementsMap_eq (oldG newG : List (String × List Nat)) (x : Nat) :
    gadgetDisplacementsMap oldG newG x
      = (lastOwner oldG x).map (fun s => (alookD newG s).map (fun b => wsub b x)) := by
  unfold gadgetDisplacementsMap lastOwner
  exact gdFold_eq newG oldG (fun _ => none) none x rfl

theorem lastOwner_fold_mem :
    ∀ (l : List (String × List Nat)) (o : Option String) (x : Nat) (s : String),
    l.foldl (fun acc p => if x ∈ p.2 then some p.1 else acc) o = some s →
    (∃ as, (s, as) ∈ l ∧ x ∈ as) ∨ o = some s := by
  intro l
  induction l with
  | nil =>
    intro o x s h
    right
    simpa using h
  | cons p ps ih =>
    intro o x s h
    rw [List.foldl_cons] at h
    rcases ih _ x s h with ⟨as, hm, hx⟩ | ho
    · exact Or.inl ⟨as, List.mem_cons_of_mem p hm, hx⟩
    · by_cases hx : x ∈ p.2
      · rw [if_pos hx] at ho
        injection ho with he
        subst he
        exact Or.inl ⟨p.2, List.mem_cons_self _ _, hx⟩
      · rw [if_neg hx] at ho
        exact Or.inr ho

theorem lastOwner_mem {oldG : List (String × List Nat)} {x : Nat} {s : String}
    (h : lastOwner oldG x = some s) : ∃ as, (s, as) ∈ oldG ∧ x ∈ as := by
  rcases lastOwner_fold_mem oldG none x s h with hm | ho
  · exact hm
  · cases ho

theorem lastOwner_fold_some :
    ∀ (l : List (String × List Nat)) (o : Option String) (x : Nat), o.isSome →
    (l.foldl (fun acc p => if x ∈ p.2 then some p.1 else acc) o).isSome := by
  intro l
  induction l with
  | nil =>
    intro o x h
    simpa using h
  | cons p ps ih =>
    intro o x h
    rw [List.foldl_cons]
    refine ih _ x ?_
    by_cases hx : x ∈ p.2 <;> simp [hx, h]

theorem lastOwner_isSome_of_mem :
    ∀ (l : List (String × List Nat)) (o : Option String) {pq : String × List Nat} {x : Nat},
    pq ∈ l → x ∈ pq.2 →
    (l.foldl (fun acc p => if x ∈ p.2 then some p.1 else acc) o).isSome := by
  intro l
  induction l with
  | nil =>
    intro o pq x hm _
    cases hm
  | cons p ps ih =>
    intro o pq x hm hx
    rw [List.foldl_cons]
    rcases List.mem_cons.mp hm with rfl | hmem
    · refine lastOwner_fold_some ps _ x ?_
      simp [hx]
    · exact ih _ hmem hx

theorem lastOwner_unique {oldG : List (String × List Nat)} {x : Nat} {s : String} {as : List Nat}
    (hexcl : ∀ p ∈ oldG, x ∈ p.2 → p.1 = s)
    (hmem : (s, as) ∈ oldG) (hx : x ∈ as) :
    lastOwner oldG x = some s := by
  have hs : (lastOwner oldG x).isSome := lastOwner_isSome_of_mem oldG none hmem hx
  obtain ⟨t, ht⟩ := Option.isSome_iff_exists.mp hs
  rw [ht]
  obtain ⟨as2, hm2, hx2⟩ := lastOwner_mem ht
  exact congrArg some (hexcl (t, as2) hm2 hx2)

theorem count_zero_map_wsub_notMem (a : Nat) (ha : a < wordSize) :
    ∀ (as : List Nat), (∀ b ∈ as, b < wordSize) → a ∉ as →
    ((as.map (fun b => wsub b a)).count 0) = 0 := by
  intro as
  induction as with
  | nil =>
    intro _ _
    simp
  | cons b bs ih =>
    intro hb hnot
    have hba : b ≠ a := by
      intro he
      refine hnot ?_
      rw [← he]
      exact List.mem_cons_self b bs
    have hwz : wsub b a ≠ 0 := by
      intro h0
      exact hba ((wsub_eq_zero_iff ha (hb b (List.mem_cons_self b bs))).mp h0)
    have hrec := ih (fun c hc => hb c (List.mem_cons_of_mem b hc))
      (fun hmem => hnot (List.mem_cons_of_mem b hmem))
    simp [List.count_cons, hrec, hwz]

theorem count_zero_map_wsub_mem (a : Nat) (ha : a < wordSize) :
    ∀ (as : List Nat), (∀ b ∈ as, b < wordSize) → as.Nodup → a ∈ as →
    ((as.map (fun b => wsub b a)).count 0) = 1 := by
  intro as
  induction as with
  | nil =>
    intro _ _ hin
    cases hin
  | cons b bs ih =>
    intro hb hnd hin
    rcases List.mem_cons.mp hin with rfl | hmem
    · have hnot : a ∉ bs := (List.nodup_cons.mp hnd).1
      have hrec := count_zero_map_wsub_notMem a ha bs
        (fun c hc => hb c (List.mem_cons_of_mem _ hc)) hnot
      simp [List.count_cons, hrec, wsub_self]
    · have hba : b ≠ a := by
        intro he
        exact (List.nodup_cons.mp hnd).1 (he ▸ hmem)
      have hwz : wsub b a ≠ 0 := by
        intro h0
        exact hba ((wsub_eq_zero_iff ha (hb b (List.mem_cons_self b bs))).mp h0)
      have hrec := ih (fun c hc => hb c (List.mem_cons_of_mem _ hc))
        (List.nodup_cons.mp hnd).2 hmem
      simp [List.count_cons, hrec, hwz]

theorem sum_map_constNat {α : Type} (l : List α) (n : Nat) :
    (l.map (fun _ => n)).sum = l.length * n := by
  induction l with
  | nil => simp
  | cons c cs ih => simp [ih, Nat.succ_mul, Nat.add_comm]

theorem cf_removed (old new : List (String × FingerprintRegion)) :
    (compareFingerprints old new).RemovedRegions
      = (old.filter (fun p => (alook p.1 new).isNone)).map (fun p => p.2.Region) := rfl

theorem cf_addedRegions (old new : List (String × FingerprintRegion)) :
    (compareFingerprints old new).AddedRegions
      = (new.filter (fun p => (alook p.1 old).isNone)).map (fun p => p.2.Region) := rfl

theorem cf_shared (old new : List (String × FingerprintRegion)) :
    (compareFingerprints old new).SharedRegionComparisons
      = old.filterMap (fun p => (alook p.1 new).map (fun q => compareFingerprintRegions p.2 q)) := rfl

theorem filter_self_none (f : List (String × FingerprintRegion)) :
    ∀ (g : List (String × FingerprintRegion)), (∀ p ∈ g, alook p.1 f = some p.2) →
    g.filter (fun p => (alook p.1 f).isNone) = [] := by
  intro g
  induction g with
  | nil =>
    intro _
    rfl
  | cons p ps ih =>
    intro hsub
    have hp := hsub p (List.mem_cons_self p ps)
    simp [List.filter_cons, hp, ih (fun q hq => hsub q (List.mem_cons_of_mem p hq))]

theorem filterMap_self (f : List (String × FingerprintRegion)) :
    ∀ (g : List (String × FingerprintRegion)), (∀ p ∈ g, alook p.1 f = some p.2) →
    g.filterMap (fun p => (alook p.1 f).map (fun q => compareFingerprintRegions p.2 q))
      = g.map (fun p => compareFingerprintRegions p.2 p.2) := by
  intro g
  induction g with
  | nil =>
    intro _
    rfl
  | cons p ps ih =>
    intro hsub
    have hp := hsub p (List.mem_cons_self p ps)
    simp [List.filterMap_cons, hp, ih (fun q hq => hsub q (List.mem_cons_of_mem p hq))]

/-- C4: comparing a well-formed fingerprint with itself yields empty
    AddedRegions and empty RemovedRegions, one shared comparison per
    region with Displacement zero, and a gadget displacement map in
    which every vector holds exactly one zero entry and every original
    address of every Sig owns such a vector. -/
theorem claimC4_theorem (f : List (String × FingerprintRegion)) (hf : wellFormedFingerprint f) :
    (compareFingerprints f f).AddedRegions = [] ∧
    (compareFingerprints f f).RemovedRegions = [] ∧
    (compareFingerprints f f).SharedRegionComparisons
        = f.map (fun p => compareFingerprintRegions p.2 p.2) ∧
    ∀ p ∈ f,
      (compareFingerprintRegions p.2 p.2).Displacement = 0 ∧
      (∀ a v, (compareFingerprintRegions p.2 p.2).GadgetDisplacements a = some v → v.count 0 = 1) ∧
      (∀ q ∈ p.2.Gadgets, ∀ a ∈ q.2, ∃ v,
        (compareFingerprintRegions p.2 p.2).GadgetDisplacements a = some v ∧ v.count 0 = 1) := by
  obtain ⟨hkeys, hwf⟩ := hf
  have hsub : ∀ p ∈ f, alook p.1 f = some p.2 := fun p hp => alook_eq_of_mem_nodup hkeys hp
  refine ⟨?_, ?_, ?_, ?_⟩
  · rw [cf_addedRegions, filter_self_none f f hsub]
    rfl
  · rw [cf_removed, filter_self_none f f hsub]
    rfl
  · rw [cf_shared, filterMap_self f f hsub]
  · intro p hp
    obtain ⟨hgk, hq⟩ := hwf p hp
    refine ⟨wsub_self _, ?_, ?_⟩
    · intro a v hv
      rw [cfr_GD, gadgetDisplacementsMap_eq] at hv
      rcases ho : lastOwner p.2.Gadgets a with _ | s
      · rw [ho] at hv
        cases hv
      · rw [ho] at hv
        obtain ⟨as2, hm2, hx2⟩ := lastOwner_mem ho
        have hlook : alook s p.2.Gadgets = some as2 := alook_eq_of_mem_nodup hgk hm2
        obtain ⟨hnd2, hb2⟩ := hq (s, as2) hm2
        have halo : alookD p.2.Gadgets s = as2 := by
          simp [alookD, hlook]
        simp only [Option.map_some'] at hv
        injection hv with he
        rw [← he, halo]
        exact count_zero_map_wsub_mem a (hb2 a hx2) as2 hb2 hnd2 hx2
    · intro q hqm a hax
      have hsome : (lastOwner p.2.Gadgets a).isSome :=
        lastOwner_isSome_of_mem p.2.Gadgets none hqm hax
      obtain ⟨s, ho⟩ := Option.isSome_iff_exists.mp hsome
      obtain ⟨as2, hm2, hx2⟩ := lastOwner_mem ho
      have hlook : alook s p.2.Gadgets = some as2 := alook_eq_of_mem_nodup hgk hm2
      obtain ⟨hnd2, hb2⟩ := hq (s, as2) hm2
      have halo : alookD p.2.Gadgets s = as2 := by
        simp [alookD, hlook]
      refine ⟨(alookD p.2.Gadgets s).map (fun b => wsub b a), ?_, ?_⟩
      · rw [cfr_GD, gadgetDisplacementsMap_eq, ho]
        rfl
      · rw [halo]
        exact count_zero_map_wsub_mem a (hb2 a hx2) as2 hb2 hnd2 hx2

theorem claimC4_witness :
    (compareFingerprints c4fp c4fp).AddedRegions = [] ∧
    (compareFingerprints c4fp c4fp).RemovedRegions = [] ∧
    (compareFingerprints c4fp c4fp).SharedRegionComparisons
        = c4fp.map (fun p => compareFingerprintRegions p.2 p.2) ∧
    ∀ p ∈ c4fp,
      (compareFingerprintRegions p.2 p.2).Displacement = 0 ∧
      (∀ a v, (compareFingerprintRegions p.2 p.2).GadgetDisplacements a = some v → v.count 0 = 1) ∧
      (∀ q ∈ p.2.Gadgets, ∀ a ∈ q.2, ∃ v,
        (compareFingerprintRegions p.2 p.2).GadgetDisplacements a = some v ∧ v.count 0 = 1) :=
  claimC4_theorem c4fp (by decide)

/-- C5 counterexample: the Sig s1 is present in both regions with one
    old and one new address, yet the sizes of the vectors recorded for
    its old addresses sum to 2, not to 1 = 1 * 1, because the Sig s2
    shares the old address 100 and overwrites its entry. -/
theorem claimC5_counterexample :
    alook "s1" c5old.Gadgets = some [100] ∧
    alook "s1" c5new.Gadgets = some [100] ∧
    (([100] : List Nat).map (fun a =>
        (((compareFingerprintRegions c5old c5new).GadgetDisplacements a).getD []).length)).sum
      ≠ ([100] : List Nat).length * ([100] : List Nat).length := by
  refine ⟨by decide, by decide, by decide⟩

/-- C5 (amended): for a Sig present in both regions, the sizes of the
    displacement vectors recorded for its old addresses sum to
    |old| * |new|, provided none of those old addresses also belongs
    to a different Sig of the old region (the displacement map is
    keyed by old address, so a different Sig sharing the address
    overwrites the recorded vector). -/
theorem claimC5_theorem (oldR newR : FingerprintRegion) (s : String) (oldAs newAs : List Nat)
    (ho : alook s oldR.Gadgets = some oldAs)
    (hn : alook s newR.Gadgets = some newAs)
    (hexcl : ∀ p ∈ oldR.Gadgets, ∀ a ∈ oldAs, a ∈ p.2 → p.1 = s) :
    (oldAs.map (fun a =>
        (((compareFingerprintRegions oldR newR).GadgetDisplacements a).getD []).length)).sum
      = oldAs.length * newAs.length := by
  have hmem : (s, oldAs) ∈ oldR.Gadgets := alook_mem ho
  have hpoint : ∀ a ∈ oldAs,
      (((compareFingerprintRegions oldR newR).GadgetDisplacements a).getD []).length
        = newAs.length := by
    intro a hax
    have hlo : lastOwner oldR.Gadgets a = some s :=
      lastOwner_unique (fun p hp hxp => hexcl p hp a hax hxp) hmem hax
    rw [cfr_GD, gadgetDisplacementsMap_eq, hlo]
    simp [alookD, hn]
  rw [List.map_congr_left hpoint, sum_map_constNat]

theorem claimC5_witness :
    (([10, 20] : List Nat).map (fun a =>
        (((compareFingerprintRegions c5oldW c5newW).GadgetDisplacements a).getD []).length)).sum
      = ([10, 20] : List Nat).length * ([30, 40, 50] : List Nat).length :=
  claimC5_theorem c5oldW c5newW "ret" [10, 20] [30, 40, 50] (by decide) (by decide) (by decide)

/-- C7 counterexample: the Sig s1 is present in the old region and
    absent from the new one, yet the vector recorded for its old
    address 100 is not empty, because the surviving Sig s2 shares that
    address and overwrites the empty vector. -/
theorem claimC7_counterexample :
    alook "s1" c7old.Gadgets = some [100] ∧
    alook "s1" c7new.Gadgets = none ∧
    (compareFingerprintRegions c7old c7new).GadgetDisplacements 100 = some [0] ∧
    (compareFingerprintRegions c7old c7new).GadgetDisplacements 100 ≠ some [] := by
  refine ⟨by decide, by decide, by decide, by decide⟩

/-- C7 (amended): a Sig present in the old region and absent from the
    new one yields the empty displacement vector for each of its old
    addresses, provided no different Sig of the old region also owns
    that address; and the comparison reports such removed Sigs in no
    other way: in particular they never appear in AddedGadgets, the
    only other gadget-level field of the output. -/
theorem claimC7_theorem (oldR newR : FingerprintRegion) (s : String) (oldAs : List Nat)
    (ho : alook s oldR.Gadgets = some oldAs)
    (hn : alook s newR.Gadgets = none)
    (hexcl : ∀ p ∈ oldR.Gadgets, ∀ a ∈ oldAs, a ∈ p.2 → p.1 = s) :
    (∀ a ∈ oldAs, (compareFingerprintRegions oldR newR).GadgetDisplacements a = some []) ∧
    ∀ q ∈ (compareFingerprintRegions oldR newR).AddedGadgets, q.1 ≠ s := by
  have hmem : (s, oldAs) ∈ oldR.Gadgets := alook_mem ho
  constructor
  · intro a hax
    have hlo : lastOwner oldR.Gadgets a = some s :=
      lastOwner_unique (fun p hp hxp => hexcl p hp a hax hxp) hmem hax
    rw [cfr_GD, gadgetDisplacementsMap_eq, hlo]
    simp [alookD, hn]
  · intro q hq hqs
    rw [cfr_added] at hq
    have hq2 : q ∈ newR.Gadgets := List.mem_of_mem_filter hq
    subst hqs
    exact alook_ne_none_of_mem hq2 hn

theorem claimC7_witness :
    (∀ a ∈ ([50, 60] : List Nat),
      (compareFingerprintRegions c7oldW c7newW).GadgetDisplacements a = some []) ∧
    ∀ q ∈ (compareFingerprintRegions c7oldW c7newW).AddedGadgets, q.1 ≠ "gone" :=
  claimC7_theorem c7oldW c7newW "gone" [50, 60] (by decide) (by decide) (by decide)

end Ropoly
